import Mathlib

/-!
Shallow embedding of the trip-aggregation core of the bluebikes-analysis
repository (src/bluebikes_analysis/tasks/aggregate_trips/aggregate_trips.py).

Modelling conventions:
* a pandas DataFrame of trips is a Lean list of Trip records, in row order;
* timestamps are seconds since the epoch as Int; a timestamp cell whose
  parse was coerced to null (pd.to_datetime with coercion, producing NaT)
  is Option.none;
* min_duration, added by the code as a derived float column, is the derived
  function min_duration below; a null (NaN) duration is Option.none, and
  every pandas comparison against NaN is false, which the Option matches
  reproduce;
* station identifiers are strings; pandas isin(list) is list membership;
* groupby(...).size() over a key is modelled by counting occurrences of the
  key in the list of per-row keys, and the set of groups is the dedup of
  that list; pandas sorts group keys, and the code additionally sort_values
  the merged hourly table by the full key, which sortByLE models;
* the raised-exception vocabulary of the spec (EmptyInputError etc.) is
  modelled by the AggError inductive: the code has no dedicated exception
  classes, but every condition the spec names as an error kind makes the
  code raise (for the empty daily input, pd.date_range receives NaT and
  raises), so the embedding returns Except.error at exactly those points.
-/

/-- Trip row after column standardisation (aggregate_trips.py, keep_columns):
started_at / ended_at are parsed timestamps (none = coerced parse failure),
the station ids, and the two categorical columns the aggregators read. -/
structure Trip where
  started_at : Option Int
  ended_at : Option Int
  start_station_id : String
  end_station_id : String
  member_casual : String
  rideable_type : String
deriving DecidableEq, Repr

/-- Embedding of _calculate_trip_duration: min_duration =
(ended_at - started_at).total_seconds() / 60, NaN (none) when either
timestamp is NaT. -/
def min_duration (t : Trip) : Option ℚ :=
  match t.started_at, t.ended_at with
  | some s, some e => some (((e - s : Int) : ℚ) / 60)
  | _, _ => none

/-- Pandas test (min_duration >= 1) & (min_duration <= 120); false on NaN. -/
def durInRange : Option ℚ → Bool
  | some q => decide (1 ≤ q) && decide (q ≤ 120)
  | none => false

/-- Pandas test min_duration < 3; false on NaN. -/
def shortDur : Option ℚ → Bool
  | some q => decide (q < 3)
  | none => false

/-- Embedding of the python test str(x).startswith("X") for the one-character
prefix "X": the first character of the string is 'X'.  (String.startsWith
itself is compiled code whose Lean model does not reduce, so the head
character test is used; for a single-character prefix the two agree.) -/
def startsWithX (s : String) : Bool :=
  match s.data with
  | [] => false
  | c :: _ => c = 'X'

/-- Embedding of the unknown-id collection in _filter_maintenance_trips:
start ids of rows whose start id is not in the metadata id list, followed by
end ids of rows whose end id is not in the metadata id list.  (The code
wraps this in a python set; only membership in it is ever used, so the
duplicate-free-ness is immaterial.) -/
def unknown_ids (all_trips : List Trip) (metadata_station_ids : List String) : List String :=
  ((all_trips.filter (fun t => !decide (t.start_station_id ∈ metadata_station_ids))).map
      (fun t => t.start_station_id)) ++
    ((all_trips.filter (fun t => !decide (t.end_station_id ∈ metadata_station_ids))).map
      (fun t => t.end_station_id))

/-- Embedding of X_station_ids in _filter_maintenance_trips: the unknown ids
whose string form starts with "X". -/
def x_station_ids (all_trips : List Trip) (metadata_station_ids : List String) : List String :=
  (unknown_ids all_trips metadata_station_ids).filter (fun s => startsWithX s)

/-- Embedding of _filter_maintenance_trips: keep the rows whose start and end
station ids are both outside x_station_ids of the input table. -/
def filter_maintenance_trips (all_trips : List Trip) (metadata_station_ids : List String) :
    List Trip :=
  let xIds := x_station_ids all_trips metadata_station_ids
  all_trips.filter
    (fun t => !(decide (t.start_station_id ∈ xIds) || decide (t.end_station_id ∈ xIds)))

/-- Embedding of _filter_outlier_trips: first keep rows with
1 <= min_duration <= 120, then drop same-station rows with min_duration < 3
from the result. -/
def filter_outlier_trips (all_trips : List Trip) : List Trip :=
  let kept := all_trips.filter (fun t => durInRange ( min_duration t))
  kept.filter
    (fun t => !(decide (t.start_station_id = t.end_station_id) && shortDur ( min_duration t)))

/-- Embedding of _clean_trip_data: maintenance filter, then (duration being
the derived function min_duration) the outlier filter. -/
def clean_trip_data (all_trips : List Trip) (metadata_station_ids : List String) : List Trip :=
  filter_outlier_trips (filter_maintenance_trips all_trips metadata_station_ids)

/-- Spec-side predicate for the maintenance filter, following the spec's
words for comparison with the code's filter_maintenance_trips: a trip is
dropped exactly when its start or end id is unknown to the metadata AND
starts with "X". -/
def maintenance_drop_spec (metadata_station_ids : List String) (t : Trip) : Bool :=
  (!decide (t.start_station_id ∈ metadata_station_ids) && startsWithX t.start_station_id) ||
    (!decide (t.end_station_id ∈ metadata_station_ids) && startsWithX t.end_station_id)

/-- Spec-side one-pass outlier filter, following the spec's words for
comparison with the code's sequential filter_outlier_trips: drop, in one
pass over the post-maintenance table, the union of the rows with duration
outside [1, 120] and the same-station rows with duration < 3. -/
def filter_outlier_onepass (all_trips : List Trip) : List Trip :=
  all_trips.filter
    (fun t =>
      !(!durInRange ( min_duration t) ||
        (decide (t.start_station_id = t.end_station_id) && shortDur ( min_duration t))))

/-- Error kinds named by the spec for the aggregation core.  The code raises
(a pandas ValueError out of pd.date_range applied to NaT bounds) exactly
when the spec says EmptyInputError. -/
inductive AggError where
  | emptyInput
deriving DecidableEq, Repr

/-- Calendar date of a trip (started_at.dt.date), as an epoch day number;
none when started_at is NaT. -/
def tripDate (t : Trip) : Option Int :=
  t.started_at.map (fun s => Int.fdiv s 86400)

/-- Embedding of pd.date_range(start, end, freq=day): the inclusive run of
day numbers from lo to hi. -/
def dateRange (lo hi : Int) : List Int :=
  (List.range (hi - lo + 1).toNat).map (fun i : Nat => lo + (i : Int))

/-- Embedding of _generate_daily_aggregates: group the non-null trip dates,
take the observed min and max date, build the complete inclusive date range,
and left-join the group sizes onto it with missing dates filled with 0 (the
count of an unobserved date in the date list is 0, so the merge-and-fillna
is the count function on the full range).  On an empty grouped table the
min and max are NaT and pd.date_range raises: the spec's EmptyInputError. -/
def generate_daily_aggregates (all_trips : List Trip) :
    Except AggError (List (Int × Nat)) :=
  let dates := all_trips.filterMap tripDate
  match dates.min?, dates.max? with
  | some lo, some hi => .ok ((dateRange lo hi).map (fun d => (d, dates.count d)))
  | _, _ => .error .emptyInput

/-- Grouping key of the hourly aggregation: (station_id, date, hour, member,
ebike). -/
structure HourKey where
  station_id : String
  date : Int
  hour : Int
  member : Nat
  ebike : Nat
deriving DecidableEq, Repr

/-- Packing of an HourKey into nested lexicographic pairs, used only to
order keys the way pandas sorts the merged table by this column list. -/
def hourKeyToLex (k : HourKey) : Lex (String × Lex (Int × Lex (Int × Lex (Nat × Nat)))) :=
  toLex (k.station_id, toLex (k.date, toLex (k.hour, toLex (k.member, k.ebike))))

theorem hourKeyToLex_injective : Function.Injective hourKeyToLex := by
  rintro ⟨s1, d1, h1, m1, e1⟩ ⟨s2, d2, h2, m2, e2⟩ h
  simp only [hourKeyToLex, toLex_inj, Prod.mk.injEq] at h
  obtain ⟨rfl, rfl, rfl, rfl, rfl⟩ := h
  rfl

instance : LinearOrder HourKey := LinearOrder.lift' hourKeyToLex hourKeyToLex_injective

/-- Key of a trip t whose started_at seconds are s, attributed to station:
date and hour come from started_at, member and ebike are the 0/1 encodings
of the two categorical columns. -/
def mkHourKey (station : String) (s : Int) (t : Trip) : HourKey :=
  ⟨station, Int.fdiv s 86400, Int.fdiv s 3600 % 24,
    (if t.member_casual = "member" then 1 else 0 : Nat),
    (if t.rideable_type = "electric_bike" then 1 else 0 : Nat)⟩

/-- Embedding of the start-date filter of _generate_hourly_station_aggregates:
keep rows with started_at >= hourly_start (false on NaT), paired with their
started_at seconds. -/
def hourly_filtered (all_trips : List Trip) (hourly_start : Int) : List (Int × Trip) :=
  all_trips.filterMap
    (fun t =>
      match t.started_at with
      | some s => if hourly_start ≤ s then some (s, t) else none
      | none => none)

/-- Per-row pickup keys: rows whose start_station_id is in the allow-list,
keyed by start_station_id.  The pickups groupby sizes are the counts of each
key in this list. -/
def pickup_keys (all_trips : List Trip) (stations_of_interest : List String)
    (hourly_start : Int) : List HourKey :=
  ((hourly_filtered all_trips hourly_start).filter
      (fun p => decide (p.2.start_station_id ∈ stations_of_interest))).map
    (fun p => mkHourKey p.2.start_station_id p.1 p.2)

/-- Per-row dropoff keys: rows whose end_station_id is in the allow-list,
keyed by end_station_id, independently of the start side. -/
def dropoff_keys (all_trips : List Trip) (stations_of_interest : List String)
    (hourly_start : Int) : List HourKey :=
  ((hourly_filtered all_trips hourly_start).filter
      (fun p => decide (p.2.end_station_id ∈ stations_of_interest))).map
    (fun p => mkHourKey p.2.end_station_id p.1 p.2)

/-- Sort of a key list into ascending order, modelling the final sort_values
by the full key column list (pandas merge with how=outer already sorts, and
the explicit stable sort_values fixes the order either way). -/
def sortByLE {α : Type} [LinearOrder α] (l : List α) : List α :=
  l.mergeSort (fun a b => decide (a ≤ b))

/-- Embedding of _generate_hourly_station_aggregates: outer-merge the pickup
and dropoff group tables on the five-part key (the key set is the union of
the two key sets), fill the missing side with 0, and sort by the key.  Each
output row carries (key, pickups, dropoffs), the counts of the key in the
two per-row key lists. -/
def hourly_station_aggregates (all_trips : List Trip) (stations_of_interest : List String)
    (hourly_start : Int) : List (HourKey × Nat × Nat) :=
  let pk := pickup_keys all_trips stations_of_interest hourly_start
  let dk := dropoff_keys all_trips stations_of_interest hourly_start
  (sortByLE ((pk ++ dk).dedup)).map (fun k => (k, pk.count k, dk.count k))

/-! Helper lemmas about the filters. -/

theorem mem_unknown_ids {trips : List Trip} {meta : List String} {s : String} :
    s ∈ unknown_ids trips meta ↔
      s ∉ meta ∧ ∃ t ∈ trips, t.start_station_id = s ∨ t.end_station_id = s := by
  simp only [unknown_ids, List.mem_append, List.mem_map, List.mem_filter]
  constructor
  · rintro (⟨t, ⟨ht, hu⟩, rfl⟩ | ⟨t, ⟨ht, hu⟩, rfl⟩)
    · exact ⟨by simpa using hu, t, ht, Or.inl rfl⟩
    · exact ⟨by simpa using hu, t, ht, Or.inr rfl⟩
  · rintro ⟨hu, t, ht, (rfl | rfl)⟩
    · exact Or.inl ⟨t, ⟨ht, by simpa using hu⟩, rfl⟩
    · exact Or.inr ⟨t, ⟨ht, by simpa using hu⟩, rfl⟩

theorem mem_x_station_ids {trips : List Trip} {meta : List String} {s : String} :
    s ∈ x_station_ids trips meta ↔
      (s ∉ meta ∧ ∃ t ∈ trips, t.start_station_id = s ∨ t.end_station_id = s) ∧
        startsWithX s = true := by
  simp only [x_station_ids, List.mem_filter, mem_unknown_ids]

theorem mem_filter_maintenance_iff {trips : List Trip} {meta : List String} {t : Trip} :
    t ∈ filter_maintenance_trips trips meta ↔
      t ∈ trips ∧ t.start_station_id ∉ x_station_ids trips meta ∧
        t.end_station_id ∉ x_station_ids trips meta := by
  simp [filter_maintenance_trips, List.mem_filter, not_or]

theorem mem_filter_outlier_iff {trips : List Trip} {t : Trip} :
    t ∈ filter_outlier_trips trips ↔
      t ∈ trips ∧ durInRange ( min_duration t) = true ∧
        ¬(t.start_station_id = t.end_station_id ∧ shortDur ( min_duration t) = true) := by
  simp [filter_outlier_trips, List.mem_filter, and_assoc, not_and]
  tauto

theorem durInRange_iff {d : Option ℚ} :
    durInRange d = true ↔ ∃ q, d = some q ∧ 1 ≤ q ∧ q ≤ 120 := by
  cases d with
  | none => simp [durInRange]
  | some q => simp [durInRange, and_assoc]

theorem min_duration_eq_none {t : Trip} (h : t.started_at = none ∨ t.ended_at = none) :
    min_duration t = none := by
  rcases h with h | h
  · simp [ min_duration, h]
  · rw [ min_duration, h]
    cases t.started_at <;> rfl

theorem started_at_isSome_of_durInRange {t : Trip}
    (h : durInRange ( min_duration t) = true) : t.started_at.isSome := by
  rcases started : t.started_at with _ | s
  · rw [ min_duration, started] at h
    simp [durInRange] at h
  · rfl

/-! Helper lemmas about the complete date range. -/

theorem mem_dateRange {lo hi d : Int} : d ∈ dateRange lo hi ↔ lo ≤ d ∧ d ≤ hi := by
  simp only [dateRange, List.mem_map, List.mem_range]
  constructor
  · rintro ⟨i, hi', rfl⟩
    omega
  · rintro ⟨h1, h2⟩
    exact ⟨(d - lo).toNat, by omega, by omega⟩

theorem dateRange_pairwise_lt (lo hi : Int) : (dateRange lo hi).Pairwise (· < ·) := by
  simp only [dateRange]
  rw [List.pairwise_map]
  refine (List.pairwise_lt_range _).imp ?_
  intro a b h
  omega

theorem dateRange_nodup (lo hi : Int) : (dateRange lo hi).Nodup :=
  (dateRange_pairwise_lt lo hi).imp ne_of_lt

/-! Helper lemmas for observed minimum and maximum dates. -/

theorem int_min?_eq_some_iff {xs : List Int} {a : Int} :
    xs.min? = some a ↔ a ∈ xs ∧ ∀ b ∈ xs, a ≤ b := by
  have anti : Std.Antisymm (fun x1 x2 : Int => x1 ≤ x2) := ⟨fun h1 h2 => le_antisymm h1 h2⟩
  exact List.min?_eq_some_iff (fun _ => le_refl _) (fun _ _ => min_choice _ _)
    (fun _ _ _ => le_min_iff)

theorem int_max?_eq_some_iff {xs : List Int} {a : Int} :
    xs.max? = some a ↔ a ∈ xs ∧ ∀ b ∈ xs, b ≤ a := by
  have anti : Std.Antisymm (fun x1 x2 : Int => x1 ≤ x2) := ⟨fun h1 h2 => le_antisymm h1 h2⟩
  exact List.max?_eq_some_iff (fun _ => le_refl _) (fun _ _ => max_choice _ _)
    (fun _ _ _ => max_le_iff)

theorem int_min?_eq_of_perm {l1 l2 : List Int} (h : l1.Perm l2) : l1.min? = l2.min? := by
  rcases h2 : l2.min? with _ | b
  · rw [List.min?_eq_none_iff] at h2 ⊢
    subst h2
    exact List.Perm.eq_nil h
  · rw [int_min?_eq_some_iff] at h2 ⊢
    exact ⟨h.mem_iff.mpr h2.1, fun c hc => h2.2 c (h.mem_iff.mp hc)⟩

theorem int_max?_eq_of_perm {l1 l2 : List Int} (h : l1.Perm l2) : l1.max? = l2.max? := by
  rcases h2 : l2.max? with _ | b
  · rw [List.max?_eq_none_iff] at h2 ⊢
    subst h2
    exact List.Perm.eq_nil h
  · rw [int_max?_eq_some_iff] at h2 ⊢
    exact ⟨h.mem_iff.mpr h2.1, fun c hc => h2.2 c (h.mem_iff.mp hc)⟩

/-! Counting lemmas: the total of the per-key group sizes over a complete,
duplicate-free key list is the number of rows. -/

theorem sum_map_ite_one {α : Type} [DecidableEq α] (x : α) (R : List α) :
    (R.map fun d => if x = d then 1 else 0).sum = R.count x := by
  induction R with
  | nil => simp
  | cons r R ih =>
    simp only [List.map_cons, List.sum_cons, ih, List.count_cons, beq_iff_eq]
    by_cases h : x = r
    · subst h
      simp [Nat.add_comm]
    · have h' : ¬(r = x) := fun hr => h hr.symm
      simp [h, h']

theorem sum_map_add_nat {α : Type} (f g : α → ℕ) (R : List α) :
    (R.map fun d => f d + g d).sum = (R.map f).sum + (R.map g).sum := by
  induction R with
  | nil => simp
  | cons r R ih => simp [ih]; omega

theorem sum_map_count_eq_length {α : Type} [DecidableEq α] (R xs : List α)
    (hR : R.Nodup) (hx : ∀ x ∈ xs, x ∈ R) :
    (R.map fun d => xs.count d).sum = xs.length := by
  induction xs with
  | nil => simp
  | cons x xs ih =>
    have hx' : ∀ y ∈ xs, y ∈ R := fun y hy => hx y (List.mem_cons_of_mem _ hy)
    have step : (R.map fun d => (x :: xs).count d).sum
        = (R.map fun d => xs.count d + if x = d then 1 else 0).sum := by
      congr 1
      refine List.map_congr_left (fun d _ => ?_)
      simp [List.count_cons, beq_iff_eq]
    rw [step, sum_map_add_nat, ih hx', sum_map_ite_one,
      List.count_eq_one_of_mem hR (hx x (List.mem_cons_self _ _))]
    simp

theorem length_filterMap_of_isSome {α β : Type} (f : α → Option β) (l : List α)
    (h : ∀ a ∈ l, (f a).isSome) : (l.filterMap f).length = l.length := by
  induction l with
  | nil => rfl
  | cons a l ih =>
    have ha : (f a).isSome := h a (List.mem_cons_self _ _)
    rcases hfa : f a with _ | b
    · rw [hfa] at ha
      simp at ha
    · simp [List.filterMap_cons, hfa,
        ih (fun x hx => h x (List.mem_cons_of_mem _ hx))]

/-! Helper lemmas about the key sort. -/

theorem sortByLE_perm {α : Type} [LinearOrder α] (l : List α) : (sortByLE l).Perm l :=
  List.mergeSort_perm l _

theorem sortByLE_sorted {α : Type} [LinearOrder α] (l : List α) :
    (sortByLE l).Sorted (· ≤ ·) := by
  have h := @List.sorted_mergeSort α (fun a b : α => decide (a ≤ b))
    (fun a b c hab hbc => by
      simp only [decide_eq_true_eq] at *
      exact le_trans hab hbc)
    (fun a b => by simpa using le_total a b) l
  exact h.imp (fun hab => by simpa using hab)

theorem sortByLE_eq_of_perm {α : Type} [LinearOrder α] {l1 l2 : List α} (h : l1.Perm l2) :
    sortByLE l1 = sortByLE l2 :=
  List.eq_of_perm_of_sorted ((sortByLE_perm l1).trans (h.trans (sortByLE_perm l2).symm))
    (sortByLE_sorted l1) (sortByLE_sorted l2)

/-! Membership through the whole cleaner. -/

theorem mem_clean_iff {raw : List Trip} {meta : List String} {t : Trip} :
    t ∈ clean_trip_data raw meta ↔
      t ∈ filter_maintenance_trips raw meta ∧ durInRange ( min_duration t) = true ∧
        ¬(t.start_station_id = t.end_station_id ∧ shortDur ( min_duration t) = true) := by
  unfold clean_trip_data
  exact mem_filter_outlier_iff

theorem tripDate_isSome_of_mem_clean {raw : List Trip} {meta : List String} {t : Trip}
    (ht : t ∈ clean_trip_data raw meta) : (tripDate t).isSome := by
  have h := (mem_clean_iff.mp ht).2.1
  have hs := started_at_isSome_of_durInRange h
  simpa [tripDate] using hs

/-! Permutation invariance: reloading the same directory of CSV files can
enumerate them in any order, which permutes the concatenated trip table;
every aggregate below is invariant under that permutation. -/

theorem unknown_ids_perm {raw1 raw2 : List Trip} (meta : List String) (h : raw1.Perm raw2) :
    (unknown_ids raw1 meta).Perm (unknown_ids raw2 meta) :=
  ((h.filter _).map _).append ((h.filter _).map _)

theorem x_station_ids_perm {raw1 raw2 : List Trip} (meta : List String) (h : raw1.Perm raw2) :
    (x_station_ids raw1 meta).Perm (x_station_ids raw2 meta) :=
  (unknown_ids_perm meta h).filter _

theorem filter_maintenance_perm {raw1 raw2 : List Trip} (meta : List String)
    (h : raw1.Perm raw2) :
    (filter_maintenance_trips raw1 meta).Perm (filter_maintenance_trips raw2 meta) := by
  have hmem : ∀ s, s ∈ x_station_ids raw1 meta ↔ s ∈ x_station_ids raw2 meta :=
    fun s => (x_station_ids_perm meta h).mem_iff
  have hpred : ∀ t : Trip,
      (!(decide (t.start_station_id ∈ x_station_ids raw2 meta) ||
          decide (t.end_station_id ∈ x_station_ids raw2 meta)))
        = (!(decide (t.start_station_id ∈ x_station_ids raw1 meta) ||
          decide (t.end_station_id ∈ x_station_ids raw1 meta))) := by
    intro t
    rw [decide_eq_decide.mpr (hmem t.start_station_id),
      decide_eq_decide.mpr (hmem t.end_station_id)]
  have e : raw2.filter
        (fun t => !(decide (t.start_station_id ∈ x_station_ids raw1 meta) ||
          decide (t.end_station_id ∈ x_station_ids raw1 meta)))
      = raw2.filter
        (fun t => !(decide (t.start_station_id ∈ x_station_ids raw2 meta) ||
          decide (t.end_station_id ∈ x_station_ids raw2 meta))) :=
    List.filter_congr (fun t _ => (hpred t).symm)
  show (raw1.filter _).Perm (raw2.filter _)
  exact e ▸ (h.filter _)

theorem clean_trip_data_perm {raw1 raw2 : List Trip} (meta : List String)
    (h : raw1.Perm raw2) :
    (clean_trip_data raw1 meta).Perm (clean_trip_data raw2 meta) :=
  ((filter_maintenance_perm meta h).filter _).filter _

theorem generate_daily_aggregates_eq_of_perm {l1 l2 : List Trip} (h : l1.Perm l2) :
    generate_daily_aggregates l1 = generate_daily_aggregates l2 := by
  have hd : (l1.filterMap tripDate).Perm (l2.filterMap tripDate) := h.filterMap _
  simp only [generate_daily_aggregates]
  rw [int_min?_eq_of_perm hd, int_max?_eq_of_perm hd]
  rcases (l2.filterMap tripDate).min? with _ | lo <;>
    rcases (l2.filterMap tripDate).max? with _ | hi <;> try rfl
  simp only [Except.ok.injEq]
  refine List.map_congr_left (fun d _ => ?_)
  rw [hd.count_eq d]

theorem hourly_station_aggregates_eq_of_perm {l1 l2 : List Trip} (allow : List String)
    (hstart : Int) (h : l1.Perm l2) :
    hourly_station_aggregates l1 allow hstart = hourly_station_aggregates l2 allow hstart := by
  have hf : (hourly_filtered l1 hstart).Perm (hourly_filtered l2 hstart) := h.filterMap _
  have hp : (pickup_keys l1 allow hstart).Perm (pickup_keys l2 allow hstart) :=
    (hf.filter _).map _
  have hd : (dropoff_keys l1 allow hstart).Perm (dropoff_keys l2 allow hstart) :=
    (hf.filter _).map _
  have hkeys : sortByLE ((pickup_keys l1 allow hstart ++ dropoff_keys l1 allow hstart).dedup)
      = sortByLE ((pickup_keys l2 allow hstart ++ dropoff_keys l2 allow hstart).dedup) :=
    sortByLE_eq_of_perm (hp.append hd).dedup
  simp only [hourly_station_aggregates]
  rw [hkeys]
  refine List.map_congr_left (fun k _ => ?_)
  rw [hp.count_eq k, hd.count_eq k]

/-! Concrete rows used by the witnesses: a 10-minute trip between two known
stations, a 1-minute same-station trip, a 10-minute trip between two ids
unknown to the metadata and not X-prefixed, and a trip whose started_at
failed to parse. -/

def tripA : Trip := ⟨some 0, some 600, "A", "B", "member", "classic_bike"⟩

def tripFalseStart : Trip := ⟨some 300, some 360, "A", "A", "casual", "classic_bike"⟩

def tripZ : Trip := ⟨some 0, some 600, "Z9", "Z8", "member", "classic_bike"⟩

def tripNull : Trip := ⟨none, some 600, "A", "B", "member", "classic_bike"⟩

/-- C1: every row returned by the trip cleaner has a defined duration q with
1 <= q <= 120 minutes, and no returned row is a same-station trip of under
3 minutes. -/
theorem C1_clean_duration_invariant (raw : List Trip) (meta : List String) (t : Trip)
    (ht : t ∈ clean_trip_data raw meta) :
    ∃ q : ℚ, min_duration t = some q ∧ 1 ≤ q ∧ q ≤ 120 ∧
      ¬(t.start_station_id = t.end_station_id ∧ q < 3) := by
  obtain ⟨-, hdur, hshort⟩ := mem_clean_iff.mp ht
  obtain ⟨q, hq, h1, h2⟩ := durInRange_iff.mp hdur
  refine ⟨q, hq, h1, h2, fun hsl => hshort ⟨hsl.1, ?_⟩⟩
  simp [shortDur, hq, hsl.2]

/-- C1 witness: the 10-minute trip between known stations survives cleaning
and satisfies the invariant. -/
theorem C1_clean_duration_invariant_witness :
    tripA ∈ clean_trip_data [tripA] ["A", "B"] ∧
      ∃ q : ℚ, min_duration tripA = some q ∧ 1 ≤ q ∧ q ≤ 120 ∧
        ¬(tripA.start_station_id = tripA.end_station_id ∧ q < 3) := by
  have hm : tripA ∈ clean_trip_data [tripA] ["A", "B"] := by
    simp [clean_trip_data, filter_maintenance_trips, filter_outlier_trips, x_station_ids,
      unknown_ids, min_duration, durInRange, shortDur, tripA, startsWithX]
    norm_num
  exact ⟨hm, C1_clean_duration_invariant _ _ _ hm⟩

/-- C4 counterexample: a 10-minute trip between the ids Z9 and Z8, both
absent from the metadata id set containing only A, survives the cleaner,
so a cleaned row's station ids need not be known to the metadata. -/
theorem C4_counterexample :
    tripZ ∈ clean_trip_data [tripZ] ["A"] ∧ tripZ.start_station_id ∉ ["A"] := by
  constructor
  · simp [clean_trip_data, filter_maintenance_trips, filter_outlier_trips, x_station_ids,
      unknown_ids, min_duration, durInRange, shortDur, tripZ, startsWithX]
    norm_num
  · simp [tripZ]

/-- C4 (amended): every row returned by the trip cleaner has no station id
that is simultaneously unknown to the metadata id set and X-prefixed; ids
unknown but not X-prefixed may remain. -/
theorem C4_amended_station_ids (raw : List Trip) (meta : List String) (t : Trip)
    (ht : t ∈ clean_trip_data raw meta) :
    ¬(t.start_station_id ∉ meta ∧ startsWithX t.start_station_id = true) ∧
      ¬(t.end_station_id ∉ meta ∧ startsWithX t.end_station_id = true) := by
  obtain ⟨hm, -, -⟩ := mem_clean_iff.mp ht
  obtain ⟨htr, hxs, hxe⟩ := mem_filter_maintenance_iff.mp hm
  constructor
  · rintro ⟨hunk, hX⟩
    exact hxs (mem_x_station_ids.mpr ⟨⟨hunk, t, htr, Or.inl rfl⟩, hX⟩)
  · rintro ⟨hunk, hX⟩
    exact hxe (mem_x_station_ids.mpr ⟨⟨hunk, t, htr, Or.inr rfl⟩, hX⟩)

/-- C4 amended witness: evaluated on the surviving trip between the unknown
non-X ids Z9 and Z8. -/
theorem C4_amended_station_ids_witness :
    tripZ ∈ clean_trip_data [tripZ] ["A"] ∧
      (¬(tripZ.start_station_id ∉ ["A"] ∧ startsWithX tripZ.start_station_id = true) ∧
        ¬(tripZ.end_station_id ∉ ["A"] ∧ startsWithX tripZ.end_station_id = true)) := by
  have hm : tripZ ∈ clean_trip_data [tripZ] ["A"] := by
    simp [clean_trip_data, filter_maintenance_trips, filter_outlier_trips, x_station_ids,
      unknown_ids, min_duration, durInRange, shortDur, tripZ, startsWithX]
    norm_num
  exact ⟨hm, C4_amended_station_ids _ _ _ hm⟩

/-- C5: the maintenance filter equals the one-pass filter that drops exactly
the trips whose start or end station id is unknown to the metadata and
X-prefixed, and keeps every other trip (in particular trips whose ids are
unknown but not X-prefixed) unchanged. -/
theorem C5_maintenance_filter_exact (trips : List Trip) (meta : List String) :
    filter_maintenance_trips trips meta =
      trips.filter (fun t => !maintenance_drop_spec meta t) := by
  show trips.filter _ = _
  refine List.filter_congr (fun t ht => ?_)
  have hs : decide (t.start_station_id ∈ x_station_ids trips meta)
      = (!decide (t.start_station_id ∈ meta) && startsWithX t.start_station_id) := by
    rw [Bool.eq_iff_iff]
    simp only [decide_eq_true_eq, Bool.and_eq_true, Bool.not_eq_true', decide_eq_false_iff_not]
    constructor
    · intro hmem
      obtain ⟨⟨hunk, -⟩, hX⟩ := mem_x_station_ids.mp hmem
      exact ⟨hunk, hX⟩
    · rintro ⟨hunk, hX⟩
      exact mem_x_station_ids.mpr ⟨⟨hunk, t, ht, Or.inl rfl⟩, hX⟩
  have he : decide (t.end_station_id ∈ x_station_ids trips meta)
      = (!decide (t.end_station_id ∈ meta) && startsWithX t.end_station_id) := by
    rw [Bool.eq_iff_iff]
    simp only [decide_eq_true_eq, Bool.and_eq_true, Bool.not_eq_true', decide_eq_false_iff_not]
    constructor
    · intro hmem
      obtain ⟨⟨hunk, -⟩, hX⟩ := mem_x_station_ids.mp hmem
      exact ⟨hunk, hX⟩
    · rintro ⟨hunk, hX⟩
      exact mem_x_station_ids.mpr ⟨⟨hunk, t, ht, Or.inr rfl⟩, hX⟩
  rw [hs, he]
  rfl

/-- C6: on an empty cleaned trip table the daily aggregator fails with the
spec's EmptyInputError (the code raises out of pd.date_range on NaT
bounds). -/
theorem C6_daily_empty_input (raw : List Trip) (meta : List String)
    (h : clean_trip_data raw meta = []) :
    generate_daily_aggregates (clean_trip_data raw meta) = Except.error AggError.emptyInput := by
  rw [h]
  rfl

/-- C6 witness: an empty raw table cleans to the empty table and the daily
aggregator errors on it. -/
theorem C6_daily_empty_input_witness :
    clean_trip_data [] [] = ([] : List Trip) ∧
      generate_daily_aggregates (clean_trip_data [] []) = Except.error AggError.emptyInput :=
  ⟨rfl, C6_daily_empty_input [] [] rfl⟩

/-- C7: applying the two outlier drop conditions sequentially, as the code
does, returns the same table as dropping in one pass the union of the rows
failing the duration range and the same-station short rows, both evaluated
on the post-maintenance table. -/
theorem C7_outlier_filter_onepass_equiv (trips : List Trip) :
    filter_outlier_trips trips = filter_outlier_onepass trips := by
  show (trips.filter _).filter _ = trips.filter _
  rw [List.filter_filter]
  refine List.filter_congr (fun t _ => ?_)
  have hb : ∀ a b c : Bool, ((!(a && b)) && c) = !(!c || (a && b)) := by decide
  exact hb _ _ _

/-- C8: a trip with an unparseable (null) started_at or ended_at has null
min_duration and is absent from the cleaned table, excluded by the duration
range test itself. -/
theorem C8_null_timestamp_excluded (raw : List Trip) (meta : List String) (t : Trip)
    (hnull : t.started_at = none ∨ t.ended_at = none) :
    min_duration t = none ∧ t ∉ clean_trip_data raw meta := by
  have hmd := min_duration_eq_none hnull
  refine ⟨hmd, fun ht => ?_⟩
  have h := (mem_clean_iff.mp ht).2.1
  rw [hmd] at h
  simp [durInRange] at h

/-- C8 witness: the trip with null started_at, evaluated in a table where
its stations are known. -/
theorem C8_null_timestamp_excluded_witness :
    tripNull.started_at = none ∧
      ( min_duration tripNull = none ∧ tripNull ∉ clean_trip_data [tripNull] ["A", "B"]) :=
  ⟨rfl, C8_null_timestamp_excluded [tripNull] ["A", "B"] tripNull (Or.inl rfl)⟩

/-- C2: on a non-empty cleaned trip table the daily aggregator succeeds and
returns exactly one row per calendar date from the minimum to the maximum
observed trip date inclusive, strictly ascending (hence no duplicates);
each row's count is the number of cleaned trips on that date (so a date
with no trips carries 0, and every count is a nonnegative Nat); and the
counts sum to the number of cleaned trips. -/
theorem C2_daily_aggregates_complete (raw : List Trip) (meta : List String)
    (trips : List Trip) (hclean : clean_trip_data raw meta = trips) (hne : trips ≠ []) :
    ∃ lo hi out,
      (trips.filterMap tripDate).min? = some lo ∧
      (trips.filterMap tripDate).max? = some hi ∧
      generate_daily_aggregates trips = Except.ok out ∧
      out.map Prod.fst = dateRange lo hi ∧
      (out.map Prod.fst).Pairwise (· < ·) ∧
      (∀ d : Int, d ∈ out.map Prod.fst ↔ lo ≤ d ∧ d ≤ hi) ∧
      (∀ p ∈ out, p.2 = (trips.filterMap tripDate).count p.1) ∧
      (out.map Prod.snd).sum = trips.length := by
  have hsome : ∀ t ∈ trips, (tripDate t).isSome := fun t ht =>
    tripDate_isSome_of_mem_clean (show t ∈ clean_trip_data raw meta from hclean ▸ ht)
  have hlen : (trips.filterMap tripDate).length = trips.length :=
    length_filterMap_of_isSome _ _ hsome
  have hdne : trips.filterMap tripDate ≠ [] := by
    intro h0
    apply hne
    have hl := congrArg List.length h0
    rw [hlen] at hl
    exact List.eq_nil_of_length_eq_zero hl
  rcases hmin : (trips.filterMap tripDate).min? with _ | lo
  · exact absurd (List.min?_eq_none_iff.mp hmin) hdne
  rcases hmax : (trips.filterMap tripDate).max? with _ | hi
  · exact absurd (List.max?_eq_none_iff.mp hmax) hdne
  obtain ⟨-, hlole⟩ := int_min?_eq_some_iff.mp hmin
  obtain ⟨-, hhile⟩ := int_max?_eq_some_iff.mp hmax
  have hagg : generate_daily_aggregates trips = Except.ok ((dateRange lo hi).map
      (fun d => (d, (trips.filterMap tripDate).count d))) := by
    simp only [generate_daily_aggregates]
    rw [hmin, hmax]
  have hfst : ((dateRange lo hi).map
        (fun d => (d, (trips.filterMap tripDate).count d))).map Prod.fst
      = dateRange lo hi := by
    rw [List.map_map]
    have hid : (Prod.fst ∘ fun d : Int => (d, (trips.filterMap tripDate).count d)) = id := rfl
    rw [hid, List.map_id]
  refine ⟨lo, hi, _, rfl, rfl, hagg, hfst, ?_, ?_, ?_, ?_⟩
  · rw [hfst]
    exact dateRange_pairwise_lt lo hi
  · intro d
    rw [hfst]
    exact mem_dateRange
  · intro p hp
    obtain ⟨d, -, rfl⟩ := List.mem_map.mp hp
    rfl
  · rw [List.map_map]
    have hcomp : (Prod.snd ∘ fun d : Int => (d, (trips.filterMap tripDate).count d))
        = fun d => (trips.filterMap tripDate).count d := rfl
    rw [hcomp, sum_map_count_eq_length _ _ (dateRange_nodup lo hi)
      (fun x hx => mem_dateRange.mpr ⟨hlole x hx, hhile x hx⟩), hlen]

/-- C2 witness: the cleaned singleton table of the 10-minute trip. -/
theorem C2_daily_aggregates_complete_witness :
    clean_trip_data [tripA] ["A", "B"] = [tripA] ∧ [tripA] ≠ ([] : List Trip) ∧
      (∃ lo hi out,
        ([tripA].filterMap tripDate).min? = some lo ∧
        ([tripA].filterMap tripDate).max? = some hi ∧
        generate_daily_aggregates [tripA] = Except.ok out ∧
        out.map Prod.fst = dateRange lo hi ∧
        (out.map Prod.fst).Pairwise (· < ·) ∧
        (∀ d : Int, d ∈ out.map Prod.fst ↔ lo ≤ d ∧ d ≤ hi) ∧
        (∀ p ∈ out, p.2 = ([tripA].filterMap tripDate).count p.1) ∧
        (out.map Prod.snd).sum = [tripA].length) := by
  have hclean : clean_trip_data [tripA] ["A", "B"] = [tripA] := by
    simp [clean_trip_data, filter_maintenance_trips, filter_outlier_trips, x_station_ids,
      unknown_ids, min_duration, durInRange, shortDur, tripA, startsWithX]
    norm_num
  exact ⟨hclean, by simp,
    C2_daily_aggregates_complete [tripA] ["A", "B"] [tripA] hclean (by simp)⟩

/-- Group sizes through a keying map: the count of a key among the mapped
keys of a row list is the number of rows whose key it is. -/
theorem count_map_eq_length_filter {α β : Type} [DecidableEq β] (f : α → β) (l : List α)
    (b : β) : ((l.map f).count b) = (l.filter (fun a => decide (f a = b))).length := by
  induction l with
  | nil => rfl
  | cons a l ih =>
    simp only [List.map_cons, List.count_cons, List.filter_cons, ih, beq_iff_eq]
    by_cases h : f a = b
    · simp [h]
    · simp [h]

/-- C3: in the hourly aggregator output every five-part key appears at most
once; a key appears iff it occurs among the pickup keys or among the dropoff
keys (outer union, so a key present on one side only still appears with the
other side counting 0); and each output row carries as pickups the number of
start-date-filtered trips whose start station is in the allow-list with that
key, and as dropoffs the number whose end station is in the allow-list with
that key — the two sides filtered independently.  Counts are Nat, hence
nonnegative. -/
theorem C3_hourly_outer_union (trips : List Trip) (allow : List String) (hstart : Int) :
    ((hourly_station_aggregates trips allow hstart).map Prod.fst).Nodup ∧
      (∀ k : HourKey, k ∈ (hourly_station_aggregates trips allow hstart).map Prod.fst ↔
        k ∈ pickup_keys trips allow hstart ∨ k ∈ dropoff_keys trips allow hstart) ∧
      (∀ r ∈ hourly_station_aggregates trips allow hstart,
        r.2.1 = ((hourly_filtered trips hstart).filter
            (fun p => decide (mkHourKey p.2.start_station_id p.1 p.2 = r.1) &&
              decide (p.2.start_station_id ∈ allow))).length ∧
          r.2.2 = ((hourly_filtered trips hstart).filter
            (fun p => decide (mkHourKey p.2.end_station_id p.1 p.2 = r.1) &&
              decide (p.2.end_station_id ∈ allow))).length) := by
  have hfst : (hourly_station_aggregates trips allow hstart).map Prod.fst
      = sortByLE ((pickup_keys trips allow hstart ++ dropoff_keys trips allow hstart).dedup) := by
    simp only [hourly_station_aggregates]
    rw [List.map_map]
    have hid : (Prod.fst ∘ fun k : HourKey =>
        (k, (pickup_keys trips allow hstart).count k,
          (dropoff_keys trips allow hstart).count k)) = id := rfl
    rw [hid, List.map_id]
  refine ⟨?_, ?_, ?_⟩
  · rw [hfst]
    exact (List.nodup_dedup _).perm (sortByLE_perm _).symm
  · intro k
    rw [hfst, (sortByLE_perm _).mem_iff, List.mem_dedup, List.mem_append]
  · intro r hr
    simp only [hourly_station_aggregates] at hr
    obtain ⟨k, -, rfl⟩ := List.mem_map.mp hr
    constructor
    · show (pickup_keys trips allow hstart).count k = _
      rw [pickup_keys, count_map_eq_length_filter, List.filter_filter]
    · show (dropoff_keys trips allow hstart).count k = _
      rw [dropoff_keys, count_map_eq_length_filter, List.filter_filter]

/-- C10: summed over the whole hourly aggregator output, pickups equal the
number of start-date-filtered trips whose start station is in the
allow-list, and dropoffs equal the number whose end station is in the
allow-list: the group-by and outer merge conserve the row counts. -/
theorem C10_hourly_count_conservation (trips : List Trip) (allow : List String)
    (hstart : Int) :
    ((hourly_station_aggregates trips allow hstart).map (fun r => r.2.1)).sum
        = ((hourly_filtered trips hstart).filter
            (fun p => decide (p.2.start_station_id ∈ allow))).length ∧
      ((hourly_station_aggregates trips allow hstart).map (fun r => r.2.2)).sum
        = ((hourly_filtered trips hstart).filter
            (fun p => decide (p.2.end_station_id ∈ allow))).length := by
  have key : ∀ pk dk : List HourKey,
      ((sortByLE ((pk ++ dk).dedup)).map fun k => pk.count k).sum = pk.length := by
    intro pk dk
    have hperm : ((sortByLE ((pk ++ dk).dedup)).map fun k => pk.count k).Perm
        (((pk ++ dk).dedup).map fun k => pk.count k) := (sortByLE_perm _).map _
    rw [hperm.sum_eq]
    exact sum_map_count_eq_length _ _ (List.nodup_dedup _)
      (fun x hx => List.mem_dedup.mpr (List.mem_append_left _ hx))
  have key' : ∀ pk dk : List HourKey,
      ((sortByLE ((pk ++ dk).dedup)).map fun k => dk.count k).sum = dk.length := by
    intro pk dk
    have hperm : ((sortByLE ((pk ++ dk).dedup)).map fun k => dk.count k).Perm
        (((pk ++ dk).dedup).map fun k => dk.count k) := (sortByLE_perm _).map _
    rw [hperm.sum_eq]
    exact sum_map_count_eq_length _ _ (List.nodup_dedup _)
      (fun x hx => List.mem_dedup.mpr (List.mem_append_right _ hx))
  constructor
  · have hmap : ((hourly_station_aggregates trips allow hstart).map fun r => r.2.1)
        = (sortByLE ((pickup_keys trips allow hstart ++
            dropoff_keys trips allow hstart).dedup)).map
          (fun k => (pickup_keys trips allow hstart).count k) := by
      simp only [hourly_station_aggregates]
      rw [List.map_map]
      rfl
    rw [hmap, key]
    show (pickup_keys trips allow hstart).length = _
    rw [pickup_keys, List.length_map]
  · have hmap : ((hourly_station_aggregates trips allow hstart).map fun r => r.2.2)
        = (sortByLE ((pickup_keys trips allow hstart ++
            dropoff_keys trips allow hstart).dedup)).map
          (fun k => (dropoff_keys trips allow hstart).count k) := by
      simp only [hourly_station_aggregates]
      rw [List.map_map]
      rfl
    rw [hmap, key']
    show (dropoff_keys trips allow hstart).length = _
    rw [dropoff_keys, List.length_map]

/-- C9: determinism of the aggregation pipeline on identical input files.
Reloading the same directory of trip CSVs can enumerate the files in any
order, so two runs see concatenated tables that are permutations of each
other; after cleaning against the same station metadata, both the daily
aggregate table and the hourly station aggregate table (and hence the CSV
bytes written from them) are identical.  A rerun with the same enumeration
order is the reflexive case. -/
theorem C9_pipeline_deterministic (raw1 raw2 : List Trip) (meta allow : List String)
    (hstart : Int) (hperm : raw1.Perm raw2) :
    generate_daily_aggregates (clean_trip_data raw1 meta)
        = generate_daily_aggregates (clean_trip_data raw2 meta) ∧
      hourly_station_aggregates (clean_trip_data raw1 meta) allow hstart
        = hourly_station_aggregates (clean_trip_data raw2 meta) allow hstart :=
  ⟨generate_daily_aggregates_eq_of_perm (clean_trip_data_perm meta hperm),
    hourly_station_aggregates_eq_of_perm allow hstart (clean_trip_data_perm meta hperm)⟩

/-- C9 witness: the two-file load orders of the trips tripA and tripZ. -/
theorem C9_pipeline_deterministic_witness :
    ([tripA, tripZ].Perm [tripZ, tripA]) ∧
      (generate_daily_aggregates (clean_trip_data [tripA, tripZ] ["A", "B"])
          = generate_daily_aggregates (clean_trip_data [tripZ, tripA] ["A", "B"]) ∧
        hourly_station_aggregates (clean_trip_data [tripA, tripZ] ["A", "B"]) ["A"] 0
          = hourly_station_aggregates (clean_trip_data [tripZ, tripA] ["A", "B"]) ["A"] 0) :=
  ⟨List.Perm.swap tripZ tripA [],
    C9_pipeline_deterministic [tripA, tripZ] [tripZ, tripA] ["A", "B"] ["A"] 0
      (List.Perm.swap tripZ tripA [])⟩
